import Mathlib

/-!
Shallow embedding of the synchronization core of `BasicGraphicsScene`
(file `BasicGraphicsScene.cpp` of the node-editor repository), together
with proofs about its traversal-based population algorithm, its draft
connection lifecycle, and its reaction handlers.

Modelling conventions:
* `NodeId` is `Nat`; `ConnectionId` is the 4-tuple from the source.
* `std::unordered_map` is modelled by `UMap`, an association list whose
  `insert` replaces any existing binding for the key; only key-set and
  lookup behaviour matter to the claims, and both are preserved.
* `std::unordered_set<NodeId>` iteration (`*allNodeIds.begin()`) has an
  unspecified but fixed order in C++; it is modelled as a `List Nat`
  whose head plays the role of `begin()`.
* The two nested `while` loops of
  `traverseGraphAndPopulateGraphicsObjects` are modelled by a fuel-indexed
  step function `traverseRun`; `none` means the fuel ran out before the
  loops finished, and termination of the C++ loops corresponds to
  `∃ fuel, traverseRun … = some _`.
-/

namespace NodeEditor

/-- `PortType` of the source (`PortType::In` / `PortType::Out`). -/
inductive PortType where
  | In : PortType
  | Out : PortType
deriving DecidableEq

/-- `ConnectionId`: a directed edge `(outNodeId, outPortIndex, inNodeId, inPortIndex)`.
Equality is field-wise, as in the source. -/
structure ConnectionId where
  outNodeId : Nat
  outPortIndex : Nat
  inNodeId : Nat
  inPortIndex : Nat
deriving DecidableEq

/-- The visual object created by `new NodeGraphicsObject(*this, nodeId)`;
only the id it is constructed from is relevant to the claims. -/
structure NodeGraphicsObject where
  nodeId : Nat
deriving DecidableEq

/-- The visual object created by `new ConnectionGraphicsObject(*this, connectionId)`;
`connectionId` is what `ConnectionGraphicsObject::connectionId()` returns. -/
structure ConnectionGraphicsObject where
  connectionId : ConnectionId
deriving DecidableEq

/-- Key/value map modelling `std::unordered_map`: an association list whose
`insert` removes any previous binding of the key. -/
abbrev UMap (κ ν : Type) : Type := List (κ × ν)

namespace UMap

variable {κ ν : Type}

/-- The key set (as a list; all operations keep it duplicate-free). -/
def keys (m : UMap κ ν) : List κ := m.map Prod.fst

/-- `m.find(k)` of the source: `some v` when the key is present. -/
def find? [DecidableEq κ] : UMap κ ν → κ → Option ν
  | [], _ => none
  | p :: m, k => if p.1 = k then some p.2 else find? m k

/-- `m.erase(k)`: drop the binding of `k`, if any. -/
def erase [DecidableEq κ] : UMap κ ν → κ → UMap κ ν
  | [], _ => []
  | p :: m, k => if p.1 = k then erase m k else p :: erase m k

/-- `m[k] = v`: overwrite any existing binding of `k`. -/
def insert [DecidableEq κ] (m : UMap κ ν) (k : κ) (v : ν) : UMap κ ν :=
  (k, v) :: erase m k

theorem keys_nil : keys ([] : UMap κ ν) = [] := rfl

theorem keys_cons (p : κ × ν) (m : UMap κ ν) :
    keys (p :: m) = p.1 :: keys m := rfl

theorem erase_nil [DecidableEq κ] (k : κ) : erase ([] : UMap κ ν) k = [] := rfl

theorem erase_cons [DecidableEq κ] (p : κ × ν) (m : UMap κ ν) (k : κ) :
    erase (p :: m) k = if p.1 = k then erase m k else p :: erase m k := rfl

theorem find?_nil [DecidableEq κ] (k : κ) : find? ([] : UMap κ ν) k = none := rfl

theorem find?_cons [DecidableEq κ] (p : κ × ν) (m : UMap κ ν) (k : κ) :
    find? (p :: m) k = if p.1 = k then some p.2 else find? m k := rfl

theorem mem_keys_erase [DecidableEq κ] (m : UMap κ ν) (k a : κ) :
    a ∈ keys (erase m k) ↔ a ∈ keys m ∧ a ≠ k := by
  induction m with
  | nil => simp [erase_nil, keys_nil]
  | cons p m ih =>
    rw [erase_cons]
    by_cases hpk : p.1 = k
    · rw [if_pos hpk, keys_cons, ih]
      simp only [List.mem_cons]
      constructor
      · rintro ⟨h, hne⟩
        exact ⟨Or.inr h, hne⟩
      · rintro ⟨(rfl | h), hne⟩
        · exact absurd hpk hne
        · exact ⟨h, hne⟩
    · rw [if_neg hpk, keys_cons, keys_cons]
      simp only [List.mem_cons, ih]
      constructor
      · rintro (rfl | ⟨h, hne⟩)
        · exact ⟨Or.inl rfl, fun he => hpk he⟩
        · exact ⟨Or.inr h, hne⟩
      · rintro ⟨(rfl | h), hne⟩
        · exact Or.inl rfl
        · exact Or.inr ⟨h, hne⟩

theorem mem_keys_insert [DecidableEq κ] (m : UMap κ ν) (k : κ) (v : ν) (a : κ) :
    a ∈ keys (insert m k v) ↔ a = k ∨ a ∈ keys m := by
  rw [insert, keys_cons]
  simp only [List.mem_cons]
  constructor
  · rintro (rfl | h)
    · exact Or.inl rfl
    · exact Or.inr ((mem_keys_erase m k a).mp h).1
  · rintro (rfl | h)
    · exact Or.inl rfl
    · by_cases hk : a = k
      · exact Or.inl hk
      · exact Or.inr ((mem_keys_erase m k a).mpr ⟨h, hk⟩)

theorem nodup_keys_erase [DecidableEq κ] (m : UMap κ ν) (k : κ)
    (h : (keys m).Nodup) : (keys (erase m k)).Nodup := by
  induction m with
  | nil => simp [erase_nil, keys_nil]
  | cons p m ih =>
    rw [keys_cons, List.nodup_cons] at h
    rw [erase_cons]
    by_cases hpk : p.1 = k
    · rw [if_pos hpk]
      exact ih h.2
    · rw [if_neg hpk, keys_cons, List.nodup_cons]
      exact ⟨fun hmem => h.1 ((mem_keys_erase m k p.1).mp hmem).1, ih h.2⟩

theorem nodup_keys_insert [DecidableEq κ] (m : UMap κ ν) (k : κ) (v : ν)
    (h : (keys m).Nodup) : (keys (insert m k v)).Nodup := by
  rw [insert, keys_cons, List.nodup_cons]
  exact ⟨fun hk => ((mem_keys_erase m k k).mp hk).2 rfl, nodup_keys_erase m k h⟩

theorem find?_eq_none_iff [DecidableEq κ] (m : UMap κ ν) (k : κ) :
    find? m k = none ↔ k ∉ keys m := by
  induction m with
  | nil => simp [find?_nil, keys_nil]
  | cons p m ih =>
    rw [find?_cons, keys_cons]
    by_cases hpk : p.1 = k
    · simp [if_pos hpk, hpk]
    · rw [if_neg hpk, ih]
      simp only [List.mem_cons]
      constructor
      · rintro h (rfl | hk)
        · exact hpk rfl
        · exact h hk
      · intro h hk
        exact h (Or.inr hk)

theorem find?_erase_self [DecidableEq κ] (m : UMap κ ν) (k : κ) :
    find? (erase m k) k = none := by
  rw [find?_eq_none_iff, mem_keys_erase]
  rintro ⟨-, h⟩
  exact h rfl

theorem find?_erase_ne [DecidableEq κ] (m : UMap κ ν) (k c : κ) (h : c ≠ k) :
    find? (erase m k) c = find? m c := by
  induction m with
  | nil => rfl
  | cons p m ih =>
    rw [erase_cons]
    by_cases hpk : p.1 = k
    · have hpc : ¬ (p.1 = c) := fun hc => h ((hc ▸ hpk : c = k))
      rw [if_pos hpk, find?_cons, if_neg hpc]
      exact ih
    · rw [if_neg hpk, find?_cons, find?_cons]
      by_cases hpc : p.1 = c
      · rw [if_pos hpc, if_pos hpc]
      · rw [if_neg hpc, if_neg hpc]
        exact ih

theorem find?_of_mem [DecidableEq κ] (m : UMap κ ν) (k : κ) (v : ν)
    (hmem : (k, v) ∈ m) (hnd : (keys m).Nodup) : find? m k = some v := by
  induction m with
  | nil => cases hmem
  | cons p m ih =>
    rw [keys_cons, List.nodup_cons] at hnd
    rw [find?_cons]
    rcases List.mem_cons.mp hmem with h | h
    · rw [if_pos (by rw [← h]), ← h]
    · have hk : k ∈ keys m := List.mem_map.mpr ⟨(k, v), h, rfl⟩
      have hpk : ¬ (p.1 = k) := fun he => hnd.1 (he ▸ hk)
      rw [if_neg hpk]
      exact ih h hnd.2

end UMap

/-- The slice of `AbstractGraphModel` the scene queries:
`allNodeIds()` (the node-id set, as a list fixing the unordered-set
iteration order), `nodeData(nodeId, NodeRole::OutPortCount).toUInt()`
(field `outPortCount`), and `connections(nodeId, portType, portIndex)`. -/
structure AbstractGraphModel where
  allNodeIds : List Nat
  outPortCount : Nat → Nat
  connections : Nat → PortType → Nat → List ConnectionId

/-- The connections gathered by the two inner `for` loops of
`traverseGraphAndPopulateGraphicsObjects`: all of
`connections(nodeId, PortType::Out, index)` for `index < nOutPorts`. -/
def outConns (M : AbstractGraphModel) (nodeId : Nat) : List ConnectionId :=
  (List.range (M.outPortCount nodeId)).flatMap
    (fun index => M.connections nodeId PortType.Out index)

/-- Iterated `allNodeIds.erase(...)`, one erase per discovered connection. -/
def eraseList (r : List Nat) (xs : List Nat) : List Nat :=
  xs.foldl (fun acc x => acc.erase x) r

theorem eraseList_subset (xs : List Nat) : ∀ (r : List Nat) (n : Nat),
    n ∈ eraseList r xs → n ∈ r := by
  induction xs with
  | nil => intro r n h; exact h
  | cons x xs ih =>
    intro r n h
    have hsub : r.erase x ⊆ r := List.erase_subset x r
    exact hsub (ih (r.erase x) n h)

theorem mem_eraseList_or (xs : List Nat) : ∀ (r : List Nat) (n : Nat),
    n ∈ r → n ∈ eraseList r xs ∨ n ∈ xs := by
  induction xs with
  | nil => intro r n h; exact Or.inl h
  | cons x xs ih =>
    intro r n h
    by_cases hx : n = x
    · exact Or.inr (List.mem_cons.mpr (Or.inl hx))
    · rcases ih (r.erase x) n ((List.mem_erase_of_ne hx).mpr h) with h' | h'
      · exact Or.inl h'
      · exact Or.inr (List.mem_cons.mpr (Or.inr h'))

/-- The mutable state of `traverseGraphAndPopulateGraphicsObjects`:
the working copy of `allNodeIds`, the `fifo` queue, the node-visual map
`_nodeGraphicsObjects`, the `connectionsToCreate` vector, and the trace
`popped` of node ids for which `new NodeGraphicsObject(...)` has run
(one entry per construction, in order). -/
structure TraverseState where
  remaining : List Nat
  fifo : List Nat
  nodeObjs : UMap Nat NodeGraphicsObject
  conns : List ConnectionId
  popped : List Nat
deriving DecidableEq

/-- The body of the inner `while (!fifo.empty())` loop for one popped
`nodeId`: store a fresh `NodeGraphicsObject`, then for every out-port
connection push `cn.inNodeId`, erase it from the working node-id set,
and record `cn` in `connectionsToCreate`. -/
def processNode (M : AbstractGraphModel) (s : TraverseState) (nodeId : Nat) :
    TraverseState :=
  let cs := outConns M nodeId
  { remaining := eraseList s.remaining (cs.map (fun cn => cn.inNodeId))
    fifo := s.fifo ++ cs.map (fun cn => cn.inNodeId)
    nodeObjs := UMap.insert s.nodeObjs nodeId { nodeId := nodeId }
    conns := s.conns ++ cs
    popped := s.popped ++ [nodeId] }

/-- Fuel-indexed execution of the two nested `while` loops: pop the queue
while nonempty, otherwise seed the queue with `*allNodeIds.begin()` (and
erase it), and stop when both are empty. `none` means the fuel was
exhausted first. -/
def traverseRun (M : AbstractGraphModel) : Nat → TraverseState → Option TraverseState
  | 0, _ => none
  | fuel + 1, s =>
    match s.fifo with
    | nodeId :: rest =>
      traverseRun M fuel (processNode M { s with fifo := rest } nodeId)
    | [] =>
      match s.remaining with
      | [] => some s
      | firstId :: rem =>
        traverseRun M fuel { s with remaining := rem, fifo := [firstId] }

/-- The state on entry to `traverseGraphAndPopulateGraphicsObjects`:
a copy of the model's node ids, empty queue, empty maps. -/
def initTraverseState (M : AbstractGraphModel) : TraverseState :=
  { remaining := M.allNodeIds
    fifo := []
    nodeObjs := []
    conns := []
    popped := [] }

/-- Whole algorithm: run the traversal, then (second phase) create one
`ConnectionGraphicsObject` per entry of `connectionsToCreate`, in order,
keyed by connection id. Returns the two maps
`(_nodeGraphicsObjects, _connectionGraphicsObjects)`. -/
def traverseGraphAndPopulateGraphicsObjects (M : AbstractGraphModel) (fuel : Nat) :
    Option (UMap Nat NodeGraphicsObject × UMap ConnectionId ConnectionGraphicsObject) :=
  (traverseRun M fuel (initTraverseState M)).map fun s =>
    (s.nodeObjs,
     s.conns.foldl (fun m cn => UMap.insert m cn { connectionId := cn }) [])

/-- Well-formed model: every connection reported on a queried out-port of a
model node leaves that node and enters a node of the model. This is the
graph-model contract the scene relies on (§6 of the spec). -/
abbrev ModelWF (M : AbstractGraphModel) : Prop :=
  ∀ n ∈ M.allNodeIds, ∀ i < M.outPortCount n,
    ∀ cn ∈ M.connections n PortType.Out i,
      cn.outNodeId = n ∧ cn.inNodeId ∈ M.allNodeIds

theorem modelWF_outConns {M : AbstractGraphModel} (hwf : ModelWF M)
    {n : Nat} (hn : n ∈ M.allNodeIds) {cn : ConnectionId}
    (hcn : cn ∈ outConns M n) : cn.outNodeId = n ∧ cn.inNodeId ∈ M.allNodeIds := by
  rcases List.mem_flatMap.mp hcn with ⟨i, hi, hc⟩
  exact hwf n hn i (List.mem_range.mp hi) cn hc

/-- Loop invariant of the traversal: every id held by the working set, the
queue or the node-visual map belongs to the model; every model node is
still pending (working set or queue) or already has a visual; every
recorded connection came from an out-port of a model node; for every model
node, either it is still pending or all of its out-port connections are
already recorded; and the node-visual map has duplicate-free keys. -/
structure TraverseInv (M : AbstractGraphModel) (s : TraverseState) : Prop where
  rem_sub : ∀ n ∈ s.remaining, n ∈ M.allNodeIds
  fifo_sub : ∀ n ∈ s.fifo, n ∈ M.allNodeIds
  nodes_sub : ∀ n ∈ UMap.keys s.nodeObjs, n ∈ M.allNodeIds
  nodes_cover : ∀ n ∈ M.allNodeIds,
    n ∈ s.remaining ∨ n ∈ s.fifo ∨ n ∈ UMap.keys s.nodeObjs
  conns_sub : ∀ cn ∈ s.conns, ∃ n ∈ M.allNodeIds, cn ∈ outConns M n
  conns_cover : ∀ n ∈ M.allNodeIds,
    (n ∈ s.remaining ∨ n ∈ s.fifo) ∨ (∀ cn ∈ outConns M n, cn ∈ s.conns)
  nodes_nodup : (UMap.keys s.nodeObjs).Nodup

theorem traverseInv_init (M : AbstractGraphModel) :
    TraverseInv M (initTraverseState M) where
  rem_sub := fun _ hn => hn
  fifo_sub := fun n hn => absurd hn (List.not_mem_nil n)
  nodes_sub := fun n hn => absurd hn (List.not_mem_nil n)
  nodes_cover := fun _ hn => Or.inl hn
  conns_sub := fun cn hcn => absurd hcn (List.not_mem_nil cn)
  conns_cover := fun _ hn => Or.inl (Or.inl hn)
  nodes_nodup := List.nodup_nil

/-- Seeding the (empty) queue from the head of the working set preserves
the invariant. -/
theorem traverseInv_seed (M : AbstractGraphModel) (firstId : Nat)
    (rem : List Nat) (no : UMap Nat NodeGraphicsObject)
    (co : List ConnectionId) (po : List Nat)
    (h : TraverseInv M ⟨firstId :: rem, [], no, co, po⟩) :
    TraverseInv M ⟨rem, [firstId], no, co, po⟩ where
  rem_sub := fun n hn => h.rem_sub n (List.mem_cons.mpr (Or.inr hn))
  fifo_sub := fun n hn => by
    rcases List.mem_cons.mp hn with rfl | hn
    · exact h.rem_sub n (List.mem_cons.mpr (Or.inl rfl))
    · exact absurd hn (List.not_mem_nil n)
  nodes_sub := h.nodes_sub
  nodes_cover := fun n hn => by
    rcases h.nodes_cover n hn with hr | hf | hk
    · rcases List.mem_cons.mp hr with rfl | hr
      · exact Or.inr (Or.inl (List.mem_cons.mpr (Or.inl rfl)))
      · exact Or.inl hr
    · exact absurd hf (List.not_mem_nil n)
    · exact Or.inr (Or.inr hk)
  conns_sub := h.conns_sub
  conns_cover := fun n hn => by
    rcases h.conns_cover n hn with (hr | hf) | hc
    · rcases List.mem_cons.mp hr with rfl | hr
      · exact Or.inl (Or.inr (List.mem_cons.mpr (Or.inl rfl)))
      · exact Or.inl (Or.inl hr)
    · exact absurd hf (List.not_mem_nil n)
    · exact Or.inr hc
  nodes_nodup := h.nodes_nodup

/-- Processing the node at the front of the queue preserves the invariant. -/
theorem traverseInv_process (M : AbstractGraphModel) (hwf : ModelWF M)
    (nodeId : Nat) (rem rest : List Nat) (no : UMap Nat NodeGraphicsObject)
    (co : List ConnectionId) (po : List Nat)
    (h : TraverseInv M ⟨rem, nodeId :: rest, no, co, po⟩) :
    TraverseInv M (processNode M ⟨rem, rest, no, co, po⟩ nodeId) := by
  have hnode : nodeId ∈ M.allNodeIds :=
    h.fifo_sub nodeId (List.mem_cons.mpr (Or.inl rfl))
  have hin : ∀ a ∈ (outConns M nodeId).map (fun cn => cn.inNodeId),
      a ∈ M.allNodeIds := by
    intro a ha
    rcases List.mem_map.mp ha with ⟨cn, hcn, rfl⟩
    exact (modelWF_outConns hwf hnode hcn).2
  refine ⟨?_, ?_, ?_, ?_, ?_, ?_, ?_⟩
  · intro n hn
    exact h.rem_sub n (eraseList_subset _ _ _ hn)
  · intro n hn
    rcases List.mem_append.mp hn with hn | hn
    · exact h.fifo_sub n (List.mem_cons.mpr (Or.inr hn))
    · exact hin n hn
  · intro n hn
    rcases (UMap.mem_keys_insert no nodeId _ n).mp hn with rfl | hn
    · exact hnode
    · exact h.nodes_sub n hn
  · intro n hn
    rcases h.nodes_cover n hn with hr | hf | hk
    · rcases mem_eraseList_or _ _ _ hr with hr' | hr'
      · exact Or.inl hr'
      · exact Or.inr (Or.inl (List.mem_append.mpr (Or.inr hr')))
    · rcases List.mem_cons.mp hf with rfl | hf
      · exact Or.inr (Or.inr ((UMap.mem_keys_insert no n _ n).mpr (Or.inl rfl)))
      · exact Or.inr (Or.inl (List.mem_append.mpr (Or.inl hf)))
    · exact Or.inr (Or.inr ((UMap.mem_keys_insert no nodeId _ n).mpr (Or.inr hk)))
  · intro cn hcn
    rcases List.mem_append.mp hcn with hcn | hcn
    · exact h.conns_sub cn hcn
    · exact ⟨nodeId, hnode, hcn⟩
  · intro n hn
    rcases h.conns_cover n hn with (hr | hf) | hc
    · rcases mem_eraseList_or _ _ _ hr with hr' | hr'
      · exact Or.inl (Or.inl hr')
      · exact Or.inl (Or.inr (List.mem_append.mpr (Or.inr hr')))
    · rcases List.mem_cons.mp hf with rfl | hf
      · exact Or.inr (fun cn hcn => List.mem_append.mpr (Or.inr hcn))
      · exact Or.inl (Or.inr (List.mem_append.mpr (Or.inl hf)))
    · exact Or.inr (fun cn hcn => List.mem_append.mpr (Or.inl (hc cn hcn)))
  · exact UMap.nodup_keys_insert no nodeId _ h.nodes_nodup

/-- Running the loops to completion from an invariant state yields an
invariant state with both the queue and the working set empty. -/
theorem traverseRun_inv (M : AbstractGraphModel) (hwf : ModelWF M) :
    ∀ (fuel : Nat) (s t : TraverseState), TraverseInv M s →
      traverseRun M fuel s = some t →
      TraverseInv M t ∧ t.fifo = [] ∧ t.remaining = [] := by
  intro fuel
  induction fuel with
  | zero => intro s t _ hrun; cases hrun
  | succ fuel ih =>
    rintro ⟨rem, fifo0, no, co, po⟩ t hinv hrun
    cases fifo0 with
    | cons nodeId rest =>
      exact ih _ t (traverseInv_process M hwf nodeId rem rest no co po hinv) hrun
    | nil =>
      cases rem with
      | nil =>
        cases hrun
        exact ⟨hinv, rfl, rfl⟩
      | cons firstId rem =>
        exact ih _ t (traverseInv_seed M firstId rem no co po hinv) hrun

theorem mem_keys_foldl_insert (l : List ConnectionId) :
    ∀ (m : UMap ConnectionId ConnectionGraphicsObject) (a : ConnectionId),
      a ∈ UMap.keys (l.foldl (fun m cn => UMap.insert m cn { connectionId := cn }) m) ↔
        a ∈ UMap.keys m ∨ a ∈ l := by
  induction l with
  | nil => intro m a; simp
  | cons cn l ih =>
    intro m a
    rw [List.foldl_cons, ih]
    rw [UMap.mem_keys_insert]
    constructor
    · rintro ((rfl | h) | h)
      · exact Or.inr (List.mem_cons.mpr (Or.inl rfl))
      · exact Or.inl h
      · exact Or.inr (List.mem_cons.mpr (Or.inr h))
    · rintro (h | h)
      · exact Or.inl (Or.inr h)
      · rcases List.mem_cons.mp h with rfl | h
        · exact Or.inl (Or.inl rfl)
        · exact Or.inr h

theorem nodup_keys_foldl_insert (l : List ConnectionId) :
    ∀ (m : UMap ConnectionId ConnectionGraphicsObject), (UMap.keys m).Nodup →
      (UMap.keys (l.foldl (fun m cn => UMap.insert m cn { connectionId := cn }) m)).Nodup := by
  induction l with
  | nil => intro m h; exact h
  | cons cn l ih =>
    intro m h
    rw [List.foldl_cons]
    exact ih _ (UMap.nodup_keys_insert m cn _ h)

/-- Claim C2: after a completed traversal-based population, the key set of
the node-visual map equals `M.allNodeIds()` — every node id keys exactly
one node visual (the keys are duplicate-free) and no key lies outside the
model. -/
theorem population_node_coverage (M : AbstractGraphModel) (fuel : Nat)
    (res : UMap Nat NodeGraphicsObject × UMap ConnectionId ConnectionGraphicsObject)
    (n : Nat) (hwf : ModelWF M)
    (hrun : traverseGraphAndPopulateGraphicsObjects M fuel = some res) :
    (UMap.keys res.1).Nodup ∧ (n ∈ UMap.keys res.1 ↔ n ∈ M.allNodeIds) := by
  rcases hres : traverseRun M fuel (initTraverseState M) with _ | s
  · rw [traverseGraphAndPopulateGraphicsObjects, hres] at hrun
    cases hrun
  · rw [traverseGraphAndPopulateGraphicsObjects, hres, Option.map_some'] at hrun
    injection hrun with hrun
    obtain ⟨hinv, hfifo, hrem⟩ :=
      traverseRun_inv M hwf fuel (initTraverseState M) s (traverseInv_init M) hres
    subst hrun
    refine ⟨hinv.nodes_nodup, ?_, fun hn => ?_⟩
    · exact fun hk => hinv.nodes_sub n hk
    · rcases hinv.nodes_cover n hn with hr | hf | hk
      · rw [hrem] at hr
        exact absurd hr (List.not_mem_nil n)
      · rw [hfifo] at hf
        exact absurd hf (List.not_mem_nil n)
      · exact hk

/-- Claim C3: after a completed traversal-based population, the key set of
the connection-visual map equals the set of connection ids obtainable by
querying some model node's out-ports; the keys are duplicate-free. (The
draft connection lives in the separate `_draftConnection` member and is
never a key of this map.) -/
theorem population_connection_coverage (M : AbstractGraphModel) (fuel : Nat)
    (res : UMap Nat NodeGraphicsObject × UMap ConnectionId ConnectionGraphicsObject)
    (cid : ConnectionId) (hwf : ModelWF M)
    (hrun : traverseGraphAndPopulateGraphicsObjects M fuel = some res) :
    (UMap.keys res.2).Nodup ∧
      (cid ∈ UMap.keys res.2 ↔ ∃ n ∈ M.allNodeIds, cid ∈ outConns M n) := by
  rcases hres : traverseRun M fuel (initTraverseState M) with _ | s
  · rw [traverseGraphAndPopulateGraphicsObjects, hres] at hrun
    cases hrun
  · rw [traverseGraphAndPopulateGraphicsObjects, hres, Option.map_some'] at hrun
    injection hrun with hrun
    obtain ⟨hinv, hfifo, hrem⟩ :=
      traverseRun_inv M hwf fuel (initTraverseState M) s (traverseInv_init M) hres
    subst hrun
    constructor
    · exact nodup_keys_foldl_insert s.conns [] List.nodup_nil
    · rw [mem_keys_foldl_insert]
      constructor
      · rintro (h | h)
        · exact absurd h (List.not_mem_nil cid)
        · exact hinv.conns_sub cid h
      · rintro ⟨n, hn, hcn⟩
        rcases hinv.conns_cover n hn with (hr | hf) | hc
        · rw [hrem] at hr
          exact absurd hr (List.not_mem_nil n)
        · rw [hfifo] at hf
          exact absurd hf (List.not_mem_nil n)
        · exact Or.inr (hc cid hcn)

/-- Claim C9: connection visuals are created only in the second phase,
after the traversal that creates node visuals has finished: every
connection recorded for phase two already has node visuals for both of
its endpoints at the end of phase one, and phase two returns exactly the
phase-one node-visual map (it never adds or removes node visuals). -/
theorem connection_visuals_after_node_visuals (M : AbstractGraphModel)
    (fuel : Nat) (s : TraverseState) (cn : ConnectionId) (hwf : ModelWF M)
    (hrun : traverseRun M fuel (initTraverseState M) = some s)
    (hcn : cn ∈ s.conns) :
    (cn.outNodeId ∈ UMap.keys s.nodeObjs ∧ cn.inNodeId ∈ UMap.keys s.nodeObjs) ∧
      (traverseGraphAndPopulateGraphicsObjects M fuel).map Prod.fst =
        some s.nodeObjs := by
  obtain ⟨hinv, hfifo, hrem⟩ :=
    traverseRun_inv M hwf fuel (initTraverseState M) s (traverseInv_init M) hrun
  have hmem : ∀ a ∈ M.allNodeIds, a ∈ UMap.keys s.nodeObjs := by
    intro a ha
    rcases hinv.nodes_cover a ha with hr | hf | hk
    · rw [hrem] at hr
      exact absurd hr (List.not_mem_nil a)
    · rw [hfifo] at hf
      exact absurd hf (List.not_mem_nil a)
    · exact hk
  obtain ⟨n, hn, hout⟩ := hinv.conns_sub cn hcn
  obtain ⟨ho, hi⟩ := modelWF_outConns hwf hn hout
  refine ⟨⟨hmem cn.outNodeId (ho ▸ hn), hmem cn.inNodeId hi⟩, ?_⟩
  rw [traverseGraphAndPopulateGraphicsObjects, hrun, Option.map_some',
    Option.map_some']

/-- Two-node cyclic model: node 0's out-port 0 connects to node 1, and
node 1's out-port 0 connects back to node 0 (the spec's `A→B→A` example). -/
def cycleConnections : Nat → PortType → Nat → List ConnectionId
  | 0, PortType.Out, 0 => [⟨0, 0, 1, 0⟩]
  | 1, PortType.Out, 0 => [⟨1, 0, 0, 0⟩]
  | _, _, _ => []

def cycleModel : AbstractGraphModel :=
  { allNodeIds := [0, 1]
    outPortCount := fun _ => 1
    connections := cycleConnections }

/-- On the cyclic model, once the queue holds exactly node 0 or exactly
node 1, every loop iteration pops the one node and pushes the other
(no visited check guards the push), so the queue never empties. -/
theorem cycle_fifo_run_none : ∀ (fuel : Nat) (s : TraverseState),
    (s.fifo = [0] ∨ s.fifo = [1]) → traverseRun cycleModel fuel s = none := by
  intro fuel
  induction fuel with
  | zero => intro s _; rfl
  | succ fuel ih =>
    rintro ⟨rem, fifo0, no, co, po⟩ (h | h) <;>
      simp only at h <;> subst h
    · exact ih _ (Or.inr rfl)
    · exact ih _ (Or.inl rfl)

/-- Claim C1 (code bug): on the cyclic model `0→1→0` the population loops
forever — no amount of fuel completes the two nested `while` loops, so
`traverseGraphAndPopulateGraphicsObjects` never yields its maps. -/
theorem traversal_nonterminating_on_cycle (fuel : Nat) :
    traverseRun cycleModel fuel (initTraverseState cycleModel) = none ∧
      traverseGraphAndPopulateGraphicsObjects cycleModel fuel = none := by
  have h : traverseRun cycleModel fuel (initTraverseState cycleModel) = none := by
    cases fuel with
    | zero => rfl
    | succ fuel => exact cycle_fifo_run_none fuel ⟨[1], [0], [], [], []⟩ (Or.inl rfl)
  exact ⟨h, by rw [traverseGraphAndPopulateGraphicsObjects, h]; rfl⟩

/-- Diamond-plus-tail model: `0→1→3`, `0→2→3`, `3→4`. Node 3 is reachable
from both 1 and 2, so the queue receives it twice. -/
def diamondConnections : Nat → PortType → Nat → List ConnectionId
  | 0, PortType.Out, 0 => [⟨0, 0, 1, 0⟩]
  | 0, PortType.Out, 1 => [⟨0, 1, 2, 0⟩]
  | 1, PortType.Out, 0 => [⟨1, 0, 3, 0⟩]
  | 2, PortType.Out, 0 => [⟨2, 0, 3, 1⟩]
  | 3, PortType.Out, 0 => [⟨3, 0, 4, 0⟩]
  | _, _, _ => []

def diamondOutPortCount : Nat → Nat
  | 0 => 2
  | 1 => 1
  | 2 => 1
  | 3 => 1
  | _ => 0

def diamondModel : AbstractGraphModel :=
  { allNodeIds := [0, 1, 2, 3, 4]
    outPortCount := diamondOutPortCount
    connections := diamondConnections }

/-- Claim C4 (code bug): on the diamond model the traversal terminates, but
node 3 is popped twice — `new NodeGraphicsObject(*this, 3)` runs twice —
and its out-connection `(3,0)→(4,0)` is recorded twice in
`connectionsToCreate`, contradicting "discovered and recorded exactly
once" and "created only when first reached". -/
theorem traversal_duplicate_discovery :
    (traverseRun diamondModel 20 (initTraverseState diamondModel)).map
        (fun s => (s.conns.count ⟨3, 0, 4, 0⟩, s.popped.count 3)) =
      some (2, 2) := by decide

/-- `Qt::Orientation` as used by the scene. -/
inductive Orientation where
  | Horizontal : Orientation
  | Vertical : Orientation
deriving DecidableEq

/-- The concrete `AbstractNodeGeometry` strategy instance owned by the
scene (`DefaultHorizontalNodeGeometry` / `DefaultVerticalNodeGeometry`). -/
inductive GeometryStrategy where
  | DefaultHorizontalNodeGeometry : GeometryStrategy
  | DefaultVerticalNodeGeometry : GeometryStrategy
deriving DecidableEq

/-- The `switch (_orientation)` of `setOrientation`: which geometry
strategy is installed for each orientation. -/
def geometryForOrientation : Orientation → GeometryStrategy
  | Orientation.Horizontal => GeometryStrategy.DefaultHorizontalNodeGeometry
  | Orientation.Vertical => GeometryStrategy.DefaultVerticalNodeGeometry

/-- State of `BasicGraphicsScene` relevant to the claims: the bound model,
the two visual maps, the single owned `_draftConnection`, `_orientation`,
and the owned `_nodeGeometry` strategy. (The painter strategy, undo stack
and rendering surface play no role in any claim.) -/
structure BasicGraphicsScene where
  graphModel : AbstractGraphModel
  nodeGraphicsObjects : UMap Nat NodeGraphicsObject
  connectionGraphicsObjects : UMap ConnectionId ConnectionGraphicsObject
  draftConnection : Option ConnectionGraphicsObject
  orientation : Orientation
  nodeGeometry : GeometryStrategy

/-- `BasicGraphicsScene::nodeGraphicsObject`: map lookup, `none` for "not
found" (`nullptr`). -/
def nodeGraphicsObject (s : BasicGraphicsScene) (nodeId : Nat) :
    Option NodeGraphicsObject :=
  UMap.find? s.nodeGraphicsObjects nodeId

/-- `BasicGraphicsScene::connectionGraphicsObject`: map lookup, `none` for
"not found" (`nullptr`). -/
def connectionGraphicsObject (s : BasicGraphicsScene)
    (connectionId : ConnectionId) : Option ConnectionGraphicsObject :=
  UMap.find? s.connectionGraphicsObjects connectionId

/-- `BasicGraphicsScene::makeDraftConnection`: assign a freshly constructed
`ConnectionGraphicsObject` to `_draftConnection` (the assignment destroys
any previous draft). `grabMouse()` and the returned reference do not touch
the modelled state. -/
def makeDraftConnection (s : BasicGraphicsScene)
    (incompleteConnectionId : ConnectionId) : BasicGraphicsScene :=
  { s with draftConnection := some { connectionId := incompleteConnectionId } }

/-- `BasicGraphicsScene::resetDraftConnection`: `_draftConnection.reset()`. -/
def resetDraftConnection (s : BasicGraphicsScene) : BasicGraphicsScene :=
  { s with draftConnection := none }

/-- `BasicGraphicsScene::onConnectionDeleted`: erase the visual for
`connectionId` if the map holds one; then, if the draft connection exists
and carries the same id, reset it. (`updateAttachedNodes` only requests
repaints and does not change the modelled state.) -/
def onConnectionDeleted (s : BasicGraphicsScene) (connectionId : ConnectionId) :
    BasicGraphicsScene :=
  let s1 :=
    match UMap.find? s.connectionGraphicsObjects connectionId with
    | some _ =>
      { s with connectionGraphicsObjects :=
          UMap.erase s.connectionGraphicsObjects connectionId }
    | none => s
  match s1.draftConnection with
  | some d =>
    if d.connectionId = connectionId then { s1 with draftConnection := none }
    else s1
  | none => s1

/-- `BasicGraphicsScene::onModelReset`: clear both visual maps (and the
rendering surface), then repopulate them by a fresh traversal of the
current model. -/
def onModelReset (s : BasicGraphicsScene) (fuel : Nat) :
    Option BasicGraphicsScene :=
  (traverseGraphAndPopulateGraphicsObjects s.graphModel fuel).map fun res =>
    { s with nodeGraphicsObjects := res.1, connectionGraphicsObjects := res.2 }

/-- `BasicGraphicsScene::setOrientation`: when the value differs, store it,
swap in the matching geometry strategy and run `onModelReset`; otherwise do
nothing. -/
def setOrientation (s : BasicGraphicsScene) (o : Orientation) (fuel : Nat) :
    Option BasicGraphicsScene :=
  if s.orientation ≠ o then
    onModelReset
      { s with orientation := o, nodeGeometry := geometryForOrientation o } fuel
  else
    some s

/-- Claim C5: `setOrientation` with the current value returns the scene
unchanged (in particular both visual maps are untouched); with the other
value it swaps the geometry strategy and its visual maps are exactly those
of a fresh traversal-based population of the current model — key sets
included. -/
theorem setOrientation_reset_equivalence (s : BasicGraphicsScene)
    (o : Orientation) (fuel : Nat) :
    setOrientation s s.orientation fuel = some s ∧
      (s.orientation ≠ o →
        setOrientation s o fuel =
          (traverseGraphAndPopulateGraphicsObjects s.graphModel fuel).map
            (fun res =>
              { s with orientation := o,
                       nodeGeometry := geometryForOrientation o,
                       nodeGraphicsObjects := res.1,
                       connectionGraphicsObjects := res.2 })) := by
  constructor
  · rw [setOrientation, if_neg (by simp)]
  · intro h
    rw [setOrientation, if_pos h]
    rfl

/-- Claim C6: `resetDraftConnection` is idempotent, is the identity when no
draft exists, and never changes the model or either visual map. -/
theorem resetDraftConnection_idempotent (s : BasicGraphicsScene) :
    resetDraftConnection (resetDraftConnection s) = resetDraftConnection s ∧
      (s.draftConnection = none → resetDraftConnection s = s) ∧
      (resetDraftConnection s).graphModel = s.graphModel ∧
      (resetDraftConnection s).nodeGraphicsObjects = s.nodeGraphicsObjects ∧
      (resetDraftConnection s).connectionGraphicsObjects =
        s.connectionGraphicsObjects := by
  refine ⟨rfl, fun h => ?_, rfl, rfl, rfl⟩
  cases s with
  | mk gm no co dr o ge =>
    simp only at h
    rw [resetDraftConnection, h]

theorem onConnectionDeleted_connMap (s : BasicGraphicsScene)
    (cid : ConnectionId) :
    (onConnectionDeleted s cid).connectionGraphicsObjects =
      (match UMap.find? s.connectionGraphicsObjects cid with
        | some _ => UMap.erase s.connectionGraphicsObjects cid
        | none => s.connectionGraphicsObjects) := by
  cases hf : UMap.find? s.connectionGraphicsObjects cid with
  | none =>
    cases hd : s.draftConnection with
    | none => simp [onConnectionDeleted, hf, hd]
    | some d =>
      by_cases hdc : d.connectionId = cid <;>
        simp [onConnectionDeleted, hf, hd, hdc]
  | some v =>
    cases hd : s.draftConnection with
    | none => simp [onConnectionDeleted, hf, hd]
    | some d =>
      by_cases hdc : d.connectionId = cid <;>
        simp [onConnectionDeleted, hf, hd, hdc]

theorem onConnectionDeleted_draft (s : BasicGraphicsScene)
    (cid : ConnectionId) :
    (onConnectionDeleted s cid).draftConnection =
      (match s.draftConnection with
        | some d => if d.connectionId = cid then none else some d
        | none => none) := by
  cases hf : UMap.find? s.connectionGraphicsObjects cid with
  | none =>
    cases hd : s.draftConnection with
    | none => simp [onConnectionDeleted, hf, hd]
    | some d =>
      by_cases hdc : d.connectionId = cid <;>
        simp [onConnectionDeleted, hf, hd, hdc]
  | some v =>
    cases hd : s.draftConnection with
    | none => simp [onConnectionDeleted, hf, hd]
    | some d =>
      by_cases hdc : d.connectionId = cid <;>
        simp [onConnectionDeleted, hf, hd, hdc]

/-- Claim C7: `onConnectionDeleted(cid)` leaves no connection visual keyed
by `cid`, preserves every other key's visual, is a no-op on the connection
map when `cid` is absent, resets the draft connection exactly when one
exists with id `cid`, and keeps a draft with a different id. -/
theorem onConnectionDeleted_spec (s : BasicGraphicsScene)
    (cid c : ConnectionId) (d : ConnectionGraphicsObject) :
    UMap.find? (onConnectionDeleted s cid).connectionGraphicsObjects cid = none ∧
      (c ≠ cid →
        UMap.find? (onConnectionDeleted s cid).connectionGraphicsObjects c =
          UMap.find? s.connectionGraphicsObjects c) ∧
      (UMap.find? s.connectionGraphicsObjects cid = none →
        (onConnectionDeleted s cid).connectionGraphicsObjects =
          s.connectionGraphicsObjects) ∧
      (s.draftConnection = some d → d.connectionId = cid →
        (onConnectionDeleted s cid).draftConnection = none) ∧
      (s.draftConnection = some d → d.connectionId ≠ cid →
        (onConnectionDeleted s cid).draftConnection = some d) := by
  refine ⟨?_, fun hc => ?_, fun hf => ?_, fun hd hdc => ?_, fun hd hdc => ?_⟩
  · rw [onConnectionDeleted_connMap]
    cases hf : UMap.find? s.connectionGraphicsObjects cid with
    | some v => exact UMap.find?_erase_self _ _
    | none => exact hf
  · rw [onConnectionDeleted_connMap]
    cases hf : UMap.find? s.connectionGraphicsObjects cid with
    | some v => exact UMap.find?_erase_ne _ _ _ hc
    | none => rfl
  · rw [onConnectionDeleted_connMap, hf]
  · rw [onConnectionDeleted_draft, hd]
    simp [hdc]
  · rw [onConnectionDeleted_draft, hd]
    simp [hdc]

/-- Claim C8: the two lookups are total functions returning `none` exactly
when no visual is keyed by the id, and returning the keyed visual when one
is (the maps' keys being duplicate-free, as every scene operation keeps
them). -/
theorem graphicsObject_lookup_spec (s : BasicGraphicsScene) (i : Nat)
    (cid : ConnectionId) (g : NodeGraphicsObject)
    (cg : ConnectionGraphicsObject) :
    (nodeGraphicsObject s i = none ↔ i ∉ UMap.keys s.nodeGraphicsObjects) ∧
      ((i, g) ∈ s.nodeGraphicsObjects →
        (UMap.keys s.nodeGraphicsObjects).Nodup →
        nodeGraphicsObject s i = some g) ∧
      (connectionGraphicsObject s cid = none ↔
        cid ∉ UMap.keys s.connectionGraphicsObjects) ∧
      ((cid, cg) ∈ s.connectionGraphicsObjects →
        (UMap.keys s.connectionGraphicsObjects).Nodup →
        connectionGraphicsObject s cid = some cg) :=
  ⟨UMap.find?_eq_none_iff _ _,
   fun h hnd => UMap.find?_of_mem _ _ _ h hnd,
   UMap.find?_eq_none_iff _ _,
   fun h hnd => UMap.find?_of_mem _ _ _ h hnd⟩

/-- A call affecting the draft connection: `makeDraftConnection` or
`resetDraftConnection`. -/
inductive DraftOp where
  | make : ConnectionId → DraftOp
  | reset : DraftOp

def applyDraftOp (s : BasicGraphicsScene) : DraftOp → BasicGraphicsScene
  | DraftOp.make cid => makeDraftConnection s cid
  | DraftOp.reset => resetDraftConnection s

def applyDraftOps (s : BasicGraphicsScene) (ops : List DraftOp) :
    BasicGraphicsScene :=
  ops.foldl applyDraftOp s

/-- The draft connection determined by the last draft-affecting call, if
any. -/
def draftAfter (s : BasicGraphicsScene) :
    Option DraftOp → Option ConnectionGraphicsObject
  | some (DraftOp.make cid) => some { connectionId := cid }
  | some DraftOp.reset => none
  | none => s.draftConnection

/-- Claim C10: `_draftConnection` is one owned slot, so after any sequence
of `makeDraftConnection` / `resetDraftConnection` calls exactly the draft
installed by the last call remains (`makeDraftConnection` overwrites —
destroying — any pre-existing draft instead of accumulating a second one),
and neither call touches the model or the visual maps. -/
theorem at_most_one_draft (s : BasicGraphicsScene) (ops : List DraftOp)
    (cid : ConnectionId) :
    (makeDraftConnection s cid).draftConnection =
        some { connectionId := cid } ∧
      (resetDraftConnection s).draftConnection = none ∧
      (applyDraftOps s ops).draftConnection = draftAfter s ops.getLast? ∧
      (applyDraftOps s ops).graphModel = s.graphModel ∧
      (applyDraftOps s ops).nodeGraphicsObjects = s.nodeGraphicsObjects ∧
      (applyDraftOps s ops).connectionGraphicsObjects =
        s.connectionGraphicsObjects := by
  refine ⟨rfl, rfl, ?_, ?_, ?_, ?_⟩
  · induction ops generalizing s with
    | nil => rfl
    | cons op ops ih =>
      cases ops with
      | nil => cases op <;> rfl
      | cons op2 ops2 =>
        rw [List.getLast?_cons_cons]
        have h := ih (applyDraftOp s op)
        rw [applyDraftOps, List.foldl_cons, ← applyDraftOps, h]
        cases hl : (op2 :: ops2).getLast? with
        | some x => cases x <;> rfl
        | none => simp [List.getLast?_eq_none_iff] at hl
  all_goals
    induction ops generalizing s with
    | nil => rfl
    | cons op ops ih =>
      rw [applyDraftOps, List.foldl_cons, ← applyDraftOps, ih]
      cases op <;> rfl

/-! Concrete witnesses: the spec's scenario model with nodes `{1, 2, 3}`
and the single connection `(1,0)→(2,0)`. -/

def cid12 : ConnectionId := ⟨1, 0, 2, 0⟩

def exampleConnections : Nat → PortType → Nat → List ConnectionId
  | 1, PortType.Out, 0 => [⟨1, 0, 2, 0⟩]
  | _, _, _ => []

def exampleModel : AbstractGraphModel :=
  { allNodeIds := [1, 2, 3]
    outPortCount := fun n => if n = 1 then 1 else 0
    connections := exampleConnections }

/-- The state the traversal of `exampleModel` finishes in. -/
def exampleTraverseState : TraverseState :=
  { remaining := []
    fifo := []
    nodeObjs := [(3, ⟨3⟩), (2, ⟨2⟩), (1, ⟨1⟩)]
    conns := [cid12]
    popped := [1, 2, 3] }

/-- The maps the population of `exampleModel` produces. -/
def examplePopulateResult :
    UMap Nat NodeGraphicsObject × UMap ConnectionId ConnectionGraphicsObject :=
  ([(3, ⟨3⟩), (2, ⟨2⟩), (1, ⟨1⟩)], [(cid12, ⟨cid12⟩)])

theorem population_node_coverage_witness :
    (UMap.keys examplePopulateResult.1).Nodup ∧
      (2 ∈ UMap.keys examplePopulateResult.1 ↔ 2 ∈ exampleModel.allNodeIds) :=
  population_node_coverage exampleModel 10 examplePopulateResult 2
    (by decide) (by decide)

theorem population_connection_coverage_witness :
    (UMap.keys examplePopulateResult.2).Nodup ∧
      (cid12 ∈ UMap.keys examplePopulateResult.2 ↔
        ∃ n ∈ exampleModel.allNodeIds, cid12 ∈ outConns exampleModel n) :=
  population_connection_coverage exampleModel 10 examplePopulateResult cid12
    (by decide) (by decide)

theorem connection_visuals_after_node_visuals_witness :
    (cid12.outNodeId ∈ UMap.keys exampleTraverseState.nodeObjs ∧
      cid12.inNodeId ∈ UMap.keys exampleTraverseState.nodeObjs) ∧
      (traverseGraphAndPopulateGraphicsObjects exampleModel 10).map Prod.fst =
        some exampleTraverseState.nodeObjs :=
  connection_visuals_after_node_visuals exampleModel 10 exampleTraverseState
    cid12 (by decide) (by decide) (by decide)

/-- A scene holding the populated visuals of `exampleModel`, no draft. -/
def exampleScene : BasicGraphicsScene :=
  { graphModel := exampleModel
    nodeGraphicsObjects := [(3, ⟨3⟩), (2, ⟨2⟩), (1, ⟨1⟩)]
    connectionGraphicsObjects := [(cid12, ⟨cid12⟩)]
    draftConnection := none
    orientation := Orientation.Horizontal
    nodeGeometry := GeometryStrategy.DefaultHorizontalNodeGeometry }

/-- `exampleScene` with a draft connection labelled `cid12`. -/
def exampleSceneWithDraft : BasicGraphicsScene :=
  { exampleScene with draftConnection := some ⟨cid12⟩ }

/-- A connection id absent from every example map. -/
def cidAbsent : ConnectionId := ⟨9, 9, 9, 9⟩

theorem setOrientation_reset_equivalence_witness :
    exampleScene.orientation ≠ Orientation.Vertical ∧
      setOrientation exampleScene Orientation.Vertical 10 =
        (traverseGraphAndPopulateGraphicsObjects exampleScene.graphModel 10).map
          (fun res =>
            { exampleScene with
                orientation := Orientation.Vertical,
                nodeGeometry := geometryForOrientation Orientation.Vertical,
                nodeGraphicsObjects := res.1,
                connectionGraphicsObjects := res.2 }) ∧
      setOrientation exampleScene exampleScene.orientation 10 =
        some exampleScene :=
  ⟨by decide,
   (setOrientation_reset_equivalence exampleScene Orientation.Vertical 10).2
     (by decide),
   (setOrientation_reset_equivalence exampleScene Orientation.Vertical 10).1⟩

theorem resetDraftConnection_idempotent_witness :
    exampleScene.draftConnection = none ∧
      resetDraftConnection exampleScene = exampleScene :=
  ⟨rfl, (resetDraftConnection_idempotent exampleScene).2.1 rfl⟩

theorem onConnectionDeleted_spec_witness :
    UMap.find?
        (onConnectionDeleted exampleSceneWithDraft cid12).connectionGraphicsObjects
        cid12 = none ∧
      UMap.find?
          (onConnectionDeleted exampleSceneWithDraft cid12).connectionGraphicsObjects
          cidAbsent =
        UMap.find? exampleSceneWithDraft.connectionGraphicsObjects cidAbsent ∧
      (onConnectionDeleted exampleSceneWithDraft cidAbsent).connectionGraphicsObjects =
        exampleSceneWithDraft.connectionGraphicsObjects ∧
      (onConnectionDeleted exampleSceneWithDraft cid12).draftConnection = none ∧
      (onConnectionDeleted exampleSceneWithDraft cidAbsent).draftConnection =
        some ⟨cid12⟩ :=
  ⟨(onConnectionDeleted_spec exampleSceneWithDraft cid12 cidAbsent ⟨cid12⟩).1,
   (onConnectionDeleted_spec exampleSceneWithDraft cid12 cidAbsent ⟨cid12⟩).2.1
     (by decide),
   (onConnectionDeleted_spec exampleSceneWithDraft cidAbsent cid12 ⟨cid12⟩).2.2.1
     (by decide),
   (onConnectionDeleted_spec exampleSceneWithDraft cid12 cidAbsent
     ⟨cid12⟩).2.2.2.1 rfl (by decide),
   (onConnectionDeleted_spec exampleSceneWithDraft cidAbsent cid12
     ⟨cid12⟩).2.2.2.2 rfl (by decide)⟩

theorem graphicsObject_lookup_spec_witness :
    (nodeGraphicsObject exampleScene 7 = none ↔
        7 ∉ UMap.keys exampleScene.nodeGraphicsObjects) ∧
      nodeGraphicsObject exampleScene 2 = some ⟨2⟩ ∧
      (connectionGraphicsObject exampleScene cidAbsent = none ↔
        cidAbsent ∉ UMap.keys exampleScene.connectionGraphicsObjects) ∧
      connectionGraphicsObject exampleScene cid12 = some ⟨cid12⟩ :=
  ⟨(graphicsObject_lookup_spec exampleScene 7 cidAbsent ⟨2⟩ ⟨cid12⟩).1,
   (graphicsObject_lookup_spec exampleScene 2 cid12 ⟨2⟩ ⟨cid12⟩).2.1
     (by decide) (by decide),
   (graphicsObject_lookup_spec exampleScene 7 cidAbsent ⟨2⟩ ⟨cid12⟩).2.2.1,
   (graphicsObject_lookup_spec exampleScene 2 cid12 ⟨2⟩ ⟨cid12⟩).2.2.2
     (by decide) (by decide)⟩

end NodeEditor
